import Mathlib

/-!
# Verification of the canteen-menu extraction pipeline

Shallow embedding of the date-inference, meal-segment classification and
storage code of the canteen-menu-system repository, together with proofs
settling the claims about it.

The embedded functions follow the Python sources:
* the cross-year date handling design document (`infer_year_for_month`,
  `infer_year_with_distance`, `EnhancedDateExtractor`,
  `handle_cross_year_range`, `CrossYearMenuStorage`);
* the horizontal-meal-classification design document
  (`MealSegmentIdentifier.identify_meal_segments`, `_is_meal_separator`,
  `_infer_meal_type_from_content`, `_validate_and_adjust_segments`,
  `_parse_horizontal_weekly_format`, `_extract_items_from_segment`).

Python `datetime.date` values are modelled as triples of integers with the
Gregorian validity check; pandas cells are modelled as strings, a missing
value being the string "nan" (the result of `str()` on NaN).
-/

namespace Canteen

/-- A calendar date as used by Python's `datetime.date`: year, month, day. -/
structure PyDate where
  year : Int
  month : Int
  day : Int
deriving DecidableEq, Repr

/-- Gregorian leap-year rule, as implemented by Python's `datetime`. -/
def isLeapYear (y : Int) : Bool :=
  (y % 4 == 0 && y % 100 != 0) || y % 400 == 0

/-- Number of days of month `m` of year `y` (Gregorian calendar). -/
def daysInMonth (y m : Int) : Int :=
  if m = 2 then (if isLeapYear y then 29 else 28)
  else if m = 4 ∨ m = 6 ∨ m = 9 ∨ m = 11 then 30
  else 31

/-- `date(y, m, d)`: returns the date when valid, `none` when the Python
constructor would raise `ValueError`. -/
def mkDate (y m d : Int) : Option PyDate :=
  if 1 ≤ m ∧ m ≤ 12 ∧ 1 ≤ d ∧ d ≤ daysInMonth y m then some ⟨y, m, d⟩ else none

/-! ## Year inference (`infer_year_for_month`, `infer_year_with_distance`)

Both functions take an optional `current_date`; when it is absent the Python
code reads the process clock (`now()`).  The clock is made explicit as an
extra parameter so that the dependence on it can be stated. -/

/-- `infer_year_for_month`: window-based year inference.  Current time in the
first half of the year: months 7-12 belong to the previous year; current time
in the second half: months 1-6 belong to the next year. -/
def infer_year_for_month (month : Int) (current_date : Option PyDate)
    (clock : PyDate) : Int :=
  let cd := current_date.getD clock
  let current_month := cd.month
  let current_year := cd.year
  if current_month ≤ 6 then
    if month ≥ 7 then current_year - 1 else current_year
  else
    if month ≤ 6 then current_year + 1 else current_year

/-- The three candidate years of `infer_year_with_distance`, each paired with
its absolute month distance to the current date. -/
def year_candidates (month current_year current_month : Int) : List (Int × Int) :=
  [(current_year - 1,
      |(current_year - 1) * 12 + month - current_year * 12 - current_month|),
   (current_year,
      |current_year * 12 + month - current_year * 12 - current_month|),
   (current_year + 1,
      |(current_year + 1) * 12 + month - current_year * 12 - current_month|)]

/-- The candidates that do not lie more than six months in the future of the
current date. -/
def valid_candidates (month current_year current_month : Int) : List (Int × Int) :=
  (year_candidates month current_year current_month).filter
    (fun c => c.1 * 12 + month ≤ current_year * 12 + current_month + 6)

/-- Core of `infer_year_with_distance` on the current year and month: pick the
valid candidate of minimal distance (Python's `min` keeps the first minimum),
falling back to the current year when no candidate is valid. -/
def infer_year_with_distance_core (month current_year current_month : Int) : Int :=
  match valid_candidates month current_year current_month with
  | [] => current_year
  | c :: cs => (cs.foldl (fun best x => if x.2 < best.2 then x else best) c).1

/-- `infer_year_with_distance`: distance-based year inference. -/
def infer_year_with_distance (month : Int) (current_date : Option PyDate)
    (clock : PyDate) : Int :=
  let cd := current_date.getD clock
  infer_year_with_distance_core month cd.year cd.month

/-! ## Day ranges -/

/-- The integers from `a` to `b` inclusive (Python's `range(a, b + 1)`). -/
def intRange (a b : Int) : List Int :=
  (List.range (b + 1 - a).toNat).map (fun i : Nat => a + (i : Int))

/-- `for day in days: try: dates.append(date(y, m, day)) except ValueError:
break` — collect dates until the first invalid day. -/
def takeValidDates (y m : Int) : List Int → List PyDate
  | [] => []
  | d :: ds =>
    match mkDate y m d with
    | some dt => dt :: takeValidDates y m ds
    | none => []

/-- `handle_cross_year_range`: expansion of a day range `start_month start_day
- end_month end_day`.  The start year is inferred from the start month (the
Python call passes no current date, hence the clock); when the end month is
numerically smaller than the start month the range crosses a year boundary and
the end-month days use the following year. -/
def handle_cross_year_range (start_month start_day end_month end_day : Int)
    (clock : PyDate) : List PyDate :=
  let start_year := infer_year_for_month start_month none clock
  if start_month > end_month then
    takeValidDates start_year start_month (intRange start_day 31) ++
    takeValidDates (start_year + 1) end_month (intRange 1 end_day)
  else
    ((intRange start_month end_month).map (fun month =>
      let s := if month = start_month then start_day else 1
      let e := if month = end_month then end_day else 31
      takeValidDates start_year month (intRange s e))).flatten

/-! ## Filename date extraction (`EnhancedDateExtractor`)

The regular-expression layer of `extract_dates_from_filename` classifies a
token as a full date, a month/day pair, or a same-month day range; the
embedding starts from that classification.  Branches two and three call
`infer_year_for_month` without a current date, i.e. on the process clock. -/

/-- A date-like token of a filename after the regular-expression match:
a full date, a month/day pair, or a same-month day range. -/
inductive DateToken where
  | fullDate (year month day : Int)
  | monthDay (month day : Int)
  | monthDayRange (month startDay endDay : Int)
deriving DecidableEq, Repr

/-- `extract_dates_from_filename`, after tokenization.  A full date is used as
written; a month/day pair gets its year inferred (on the clock); a day range
is expanded, an invalid day aborting the whole range (the `try` wraps the
loop). -/
def extract_dates_from_token (tok : DateToken) (clock : PyDate) : List PyDate :=
  match tok with
  | .fullDate y m d => (mkDate y m d).toList
  | .monthDay m d =>
    let y := infer_year_for_month m none clock
    (mkDate y m d).toList
  | .monthDayRange m d1 d2 =>
    let y := infer_year_for_month m none clock
    if (intRange d1 d2).all (fun d => (mkDate y m d).isSome) then
      (intRange d1 d2).filterMap (fun d => mkDate y m d)
    else []

/-! ## String helpers

Python string primitives (`strip`, `split`, substring test, substring count,
digit parsing) are modelled on the character list of a `String`, keeping every
definition structurally recursive so that concrete instances evaluate. -/

/-- Characters stripped by Python's `str.strip()`. -/
def isSpaceChar (c : Char) : Bool :=
  c = ' ' ∨ c = '\t' ∨ c = '\n' ∨ c = '\r' ∨ c = '　'

/-- Python `str.strip()`. -/
def pyStrip (s : String) : String :=
  ⟨((s.data.dropWhile isSpaceChar).reverse.dropWhile isSpaceChar).reverse⟩

/-- Split a character list at every occurrence of a separator character. -/
def splitAnyChars (seps : List Char) : List Char → List (List Char)
  | [] => [[]]
  | c :: rest =>
    match splitAnyChars seps rest with
    | [] => [[]]
    | g :: gs => if c ∈ seps then [] :: g :: gs else (c :: g) :: gs

/-- Python `re.split` on the dish delimiters `[,，、；;]`. -/
def splitDishes (s : String) : List String :=
  (splitAnyChars [',', '，', '、', '；', ';'] s.data).map (fun cs => ⟨cs⟩)

/-- Substring test (Python's `in` on strings), on character lists. -/
def subOccurs (pat : List Char) : List Char → Bool
  | [] => pat.isEmpty
  | c :: rest => pat.isPrefixOf (c :: rest) || subOccurs pat rest

/-- Non-overlapping occurrence count (Python's `str.count`).  The extra
argument counts characters still to skip after a match, keeping the recursion
structural. -/
def countOccurAux (pat : List Char) : List Char → Nat → Nat
  | [], _ => 0
  | c :: rest, 0 =>
    if pat.isPrefixOf (c :: rest) ∧ pat ≠ [] then
      1 + countOccurAux pat rest (pat.length - 1)
    else countOccurAux pat rest 0
  | _ :: rest, k + 1 => countOccurAux pat rest k

/-- Python `str.count`. -/
def countOccur (s pat : String) : Nat := countOccurAux pat.data s.data 0

/-- Value of a decimal digit string (`none` when empty or non-digit). -/
def digitsToNat : List Char → Option Nat
  | [] => none
  | cs => cs.foldl (fun acc c => match acc with
      | none => none
      | some n => if c.isDigit then some (n * 10 + (c.toNat - '0'.toNat)) else none)
      (some 0)

/-- `datetime.strptime(s, "%Y-%m-%d").date()`: a four-digit year and one- or
two-digit month and day separated by dashes, denoting a valid date; `none`
when Python would raise `ValueError`. -/
def strptimeYMD (s : String) : Option (Int × Int × Int) :=
  match splitAnyChars ['-'] s.data with
  | [ys, ms, ds] =>
    match digitsToNat ys, digitsToNat ms, digitsToNat ds with
    | some y, some m, some d =>
      if ys.length = 4 ∧ ms.length ≤ 2 ∧ ds.length ≤ 2 ∧
          1 ≤ m ∧ m ≤ 12 ∧ 1 ≤ d ∧ (d : Int) ≤ daysInMonth (y : Int) (m : Int) then
        some ((y : Int), (m : Int), (d : Int))
      else none
    | _, _, _ => none
  | _ => none

/-! ## Menu data model (`MenuItem`, `Meal`, `MenuData`) -/

/-- A dish, as built by `_extract_items_from_segment`. -/
structure MenuItem where
  name : String
  category : String
  description : Option String
  price : Option Int
  order : Nat
  category_order : Nat
deriving DecidableEq, Repr

/-- A meal: period tag, serving time, ordered dishes. -/
structure Meal where
  type : String
  time : String
  items : List MenuItem
deriving DecidableEq, Repr

/-- One day of menu data. -/
structure MenuData where
  date : String
  meals : List Meal
deriving DecidableEq, Repr

/-! ## Storage (`CrossYearMenuStorage`) -/

/-- `CrossYearMenuStorage`: menu data grouped by year, plus a date-to-year
index.  The Python dictionaries are modelled as functions to `Option`. -/
structure CrossYearMenuStorage where
  menu_data_by_year : Int → Option (String → Option (List Meal))
  date_index : String → Option Int

/-- A freshly constructed storage: both dictionaries empty. -/
def CrossYearMenuStorage.empty : CrossYearMenuStorage :=
  ⟨fun _ => none, fun _ => none⟩

/-- `store_menu_data`: parse the date string, group under its year, update the
index.  `none` models the `ValueError` of `strptime` on a malformed string. -/
def store_menu_data (st : CrossYearMenuStorage) (date_str : String)
    (meals : List Meal) : Option CrossYearMenuStorage :=
  match strptimeYMD date_str with
  | none => none
  | some (y, _, _) =>
    let inner := (st.menu_data_by_year y).getD (fun _ => none)
    some
      { menu_data_by_year := fun y' =>
          if y' = y then
            some (fun s => if s = date_str then some meals else inner s)
          else st.menu_data_by_year y'
        date_index := fun s =>
          if s = date_str then some y else st.date_index s }

/-- `get_menu_by_date`: look the date up in the index, then in its year's
group. -/
def get_menu_by_date (st : CrossYearMenuStorage) (date_str : String) :
    Option (List Meal) :=
  match st.date_index date_str with
  | some y => ((st.menu_data_by_year y).getD (fun _ => none)) date_str
  | none => none

/-! ## The grid (`pd.DataFrame`)

A decoded spreadsheet: rows of string cells.  A missing value (`NaN`) is the
string `"nan"`, which is what `str()` produces for it in the Python code. -/

/-- A pandas data frame of string cells. -/
structure DataFrame where
  rows : List (List String)
  ncols : Nat
deriving DecidableEq, Repr

/-- `len(df)`: the number of rows. -/
def DataFrame.nrows (df : DataFrame) : Nat := df.rows.length

/-- `str(df.iloc[r, c])`. -/
def DataFrame.cell (df : DataFrame) (r c : Nat) : String :=
  (df.rows.getD r []).getD c "nan"

/-- A cell value that pandas/`str.strip` treats as blank. -/
def isBlankCell (v : String) : Bool := v = "" ∨ v = "nan"

/-! ## Meal segments (`MealSegmentIdentifier`) -/

/-- `MealSegment`: a contiguous row range with its meal period. -/
structure MealSegment where
  start_row : Nat
  end_row : Nat
  meal_type : String
deriving DecidableEq, Repr

/-- The meal-period labels recognised by the identifier. -/
def meal_period_labels : List String :=
  ["早餐", "午餐", "晚餐", "breakfast", "lunch", "dinner"]

/-- `_is_meal_separator`: a meal-period label, the literal `类别`, or a blank
leading cell of an entirely blank row. -/
def is_meal_separator (df : DataFrame) (cell_value : String) (row_idx : Nat) : Bool :=
  if cell_value ∈ meal_period_labels then true
  else if cell_value = "类别" then true
  else if isBlankCell cell_value then
    (List.range df.ncols).all (fun c => isBlankCell (pyStrip (df.cell row_idx c)))
  else false

/-- `_extract_meal_type_from_separator`.  Modelled from the spec: the method
is referenced but not defined in the design document; per the specification a
separator that is itself a meal-period label yields exactly that period,
other separators (the `类别` marker, a blank row) yield no period. -/
def extract_meal_type_from_separator (cell_value : String) : Option String :=
  if cell_value = "早餐" ∨ cell_value = "breakfast" then some "breakfast"
  else if cell_value = "午餐" ∨ cell_value = "lunch" then some "lunch"
  else if cell_value = "晚餐" ∨ cell_value = "dinner" then some "dinner"
  else none

/-- The per-period category and keyword vocabularies (`meal_indicators`). -/
def meal_indicators : List (String × List String × List String) :=
  [("breakfast", ["粥品", "包点", "豆浆", "油条", "煎蛋", "早点"],
                 ["粥", "包", "豆浆", "油条", "蛋", "饼"]),
   ("lunch", ["荤菜", "素菜", "汤品", "主食", "米饭"],
             ["肉", "鱼", "鸡", "猪", "牛", "菜", "汤"]),
   ("dinner", ["清淡", "小菜", "汤品", "粥品"],
              ["清", "淡", "小菜", "汤", "粥"])]

/-- The aggregated text of the rows `start_row..end_row`: every non-blank
cell followed by a single space. -/
def segment_content_text (df : DataFrame) (start_row end_row : Nat) : String :=
  ((List.range' start_row (end_row + 1 - start_row)).map (fun r =>
    (List.range df.ncols).map (fun c => pyStrip (df.cell r c)))).flatten.foldl
    (fun acc v => if isBlankCell v then acc else acc ++ v ++ " ") ""

/-- The per-period scores of a text: three points per vocabulary category
occurring in it, plus the occurrence count of each keyword. -/
def content_scores (content : String) : List (String × Nat) :=
  meal_indicators.map (fun ind =>
    (ind.1, 3 * ind.2.1.countP (fun cat => subOccurs cat.data content.data)
      + (ind.2.2.map (fun k => countOccur content k)).sum))

/-- Python's `max(xs, key=...)` over score pairs: the first pair attaining the
maximal score. -/
def pyMaxBySnd : List (String × Nat) → String × Nat
  | [] => ("", 0)
  | x :: xs => xs.foldl (fun best y => if y.2 > best.2 then y else best) x

/-- `_infer_meal_type_from_content`: highest-scoring period of the aggregated
segment text, lunch when every period scores zero. -/
def infer_meal_type_from_content (df : DataFrame) (start_row end_row : Nat) : String :=
  let best := pyMaxBySnd (content_scores (segment_content_text df start_row end_row))
  if best.2 > 0 then best.1 else "lunch"

/-- `_validate_and_adjust_segments`: the segment-count normalization.  One
segment: lunch.  Two: breakfast, lunch.  Three or more: breakfast, lunch,
dinner, the segments beyond the third merged into the dinner segment. -/
def validate_and_adjust_segments : List MealSegment → List MealSegment
  | [] => []
  | [s] => [{ s with meal_type := "lunch" }]
  | [s1, s2] => [{ s1 with meal_type := "breakfast" }, { s2 with meal_type := "lunch" }]
  | s1 :: s2 :: s3 :: rest =>
    [{ s1 with meal_type := "breakfast" },
     { s2 with meal_type := "lunch" },
     { s3 with meal_type := "dinner", end_row := (rest.getLastD s3).end_row }]

/-- One step of the segmentation scan of `identify_meal_segments`: state is
`(segments so far, current segment start, period of the last separator)`. -/
def identify_step (df : DataFrame)
    (st : List MealSegment × Nat × Option String) (row_idx : Nat) :
    List MealSegment × Nat × Option String :=
  let segments := st.1
  let start := st.2.1
  let cur := st.2.2
  let first_col_value := pyStrip (df.cell row_idx 0)
  if is_meal_separator df first_col_value row_idx then
    let segments' :=
      if start < row_idx then
        segments ++ [⟨start, row_idx - 1,
          cur.getD (infer_meal_type_from_content df start (row_idx - 1))⟩]
      else segments
    (segments', row_idx + 1, extract_meal_type_from_separator first_col_value)
  else (segments, start, cur)

/-- The segment list built by the scan of `identify_meal_segments` (the local
variable `segments` just before `_validate_and_adjust_segments`). -/
def identify_meal_segments_raw (df : DataFrame) (weekday_row_idx : Nat) :
    List MealSegment :=
  let scan := (List.range' (weekday_row_idx + 1) (df.nrows - (weekday_row_idx + 1))).foldl
    (identify_step df) ([], weekday_row_idx + 1, none)
  if scan.2.1 < df.nrows then
    scan.1 ++ [⟨scan.2.1, df.nrows - 1,
      scan.2.2.getD (infer_meal_type_from_content df scan.2.1 (df.nrows - 1))⟩]
  else scan.1

/-- `identify_meal_segments`: the scan followed by the count normalization. -/
def identify_meal_segments (df : DataFrame) (weekday_row_idx : Nat) :
    List MealSegment :=
  validate_and_adjust_segments (identify_meal_segments_raw df weekday_row_idx)

/-! ## Dish extraction (`_extract_items_from_segment`) -/

/-- The scan state of `_extract_items_from_segment`: the pending category, the
two order counters, and the category-order dictionary (an association list in
insertion order). -/
structure ExtractState where
  current_category : Option String
  item_order : Nat
  category_order : Nat
  category_order_map : List (String × Nat)
deriving DecidableEq, Repr

/-- The initial extraction state. -/
def initExtract : ExtractState × List MenuItem := (⟨none, 0, 0, []⟩, [])

/-- `category_order_map.get(current_category, 0)`. -/
def ExtractState.orderOf (s : ExtractState) : Nat :=
  match s.current_category with
  | none => 0
  | some c => ((s.category_order_map.lookup c).getD 0)

/-- Update of the pending category by the leading cell of one row: a
non-blank cell that is not a separator word becomes the current category. -/
def category_update (df : DataFrame) (cur : Option String) (row_idx : Nat) :
    Option String :=
  let category_cell := pyStrip (df.cell row_idx 0)
  if ¬ isBlankCell category_cell ∧ category_cell ∉ ["类别", "早餐", "午餐", "晚餐"] then
    some category_cell
  else cur

/-- The most recently seen non-blank category cell over a list of rows
(`none` when every leading cell is blank or a separator word). -/
def last_category (df : DataFrame) (rows : List Nat) : Option String :=
  rows.foldl (category_update df) none

/-- One dish appended by the splitting loop of `_extract_items_from_segment`:
the item order advances, the dish carries the pending category (defaulting to
`其他`) and that category's order. -/
def dish_append_step (acc : ExtractState × List MenuItem) (item_name : String) :
    ExtractState × List MenuItem :=
  ({ acc.1 with item_order := acc.1.item_order + 1 },
   acc.2 ++ [⟨item_name, acc.1.current_category.getD "其他", none, none,
              acc.1.item_order, acc.1.orderOf⟩])

/-- Invariant: the pending category, when present, has an entry in the
category-order dictionary. -/
def map_inv (s : ExtractState) : Prop :=
  ∀ c, s.current_category = some c → ∃ v, s.category_order_map.lookup c = some v

/-- Invariant: every emitted item with a non-sentinel category carries
exactly the dictionary's order for its category. -/
def items_consistent (s : ExtractState) (items : List MenuItem) : Prop :=
  ∀ i ∈ items, i.category ≠ "其他" →
    s.category_order_map.lookup i.category = some i.category_order

/-- The category phase of one row of `_extract_items_from_segment`: a
non-blank, non-separator leading cell becomes the current category and is
entered into the category-order dictionary when new. -/
def category_state_update (df : DataFrame) (s : ExtractState) (row_idx : Nat) :
    ExtractState :=
  let category_cell := pyStrip (df.cell row_idx 0)
  if ¬ isBlankCell category_cell ∧ category_cell ∉ ["类别", "早餐", "午餐", "晚餐"] then
    let s := { s with current_category := some category_cell }
    if (s.category_order_map.lookup category_cell).isNone then
      { s with
        category_order_map := s.category_order_map ++ [(category_cell, s.category_order)],
        category_order := s.category_order + 1 }
    else s
  else s

/-- One row of `_extract_items_from_segment`: update the category, then split
the day-column cell into dishes. -/
def extract_row_step (df : DataFrame) (col_idx : Nat)
    (st : ExtractState × List MenuItem) (row_idx : Nat) :
    ExtractState × List MenuItem :=
  let items := st.2
  let s := category_state_update df st.1 row_idx
  if col_idx < df.ncols then
    let food := pyStrip (df.cell row_idx col_idx)
    if isBlankCell food then (s, items)
    else
      (((splitDishes food).map pyStrip).filter (fun p => ¬ isBlankCell p)).foldl
        dish_append_step (s, items)
  else (s, items)

/-- `_extract_items_from_segment`: the dishes of one segment in one weekday
column. -/
def extract_items_from_segment (df : DataFrame) (segment : MealSegment)
    (col_idx : Nat) : List MenuItem :=
  ((List.range' segment.start_row (segment.end_row + 1 - segment.start_row)).foldl
    (extract_row_step df col_idx) initExtract).2

/-! ## The horizontal weekly parser (`_parse_horizontal_weekly_format`) -/

/-- The default serving times (`meal_times`). -/
def meal_times : List (String × String) :=
  [("breakfast", "07:30"), ("lunch", "12:00"), ("dinner", "18:00")]

/-- The body of the per-weekday loop of `_parse_horizontal_weekly_format`: one
`Meal` per segment that yields at least one dish in the column. -/
def build_meals_for_col (df : DataFrame) (meal_segments : List MealSegment)
    (col_idx : Nat) : List Meal :=
  meal_segments.filterMap (fun segment =>
    let items := extract_items_from_segment df segment col_idx
    if items.isEmpty then none
    else some ⟨segment.meal_type, (meal_times.lookup segment.meal_type).getD "12:00", items⟩)

/-- Weekday header tokens with their weekday numbers.  Modelled from the spec:
the weekday-token vocabulary of `_find_weekday_headers` is not part of the
sources; the specification asks for "a row containing multiple weekday tokens
across columns". -/
def weekday_tokens : List (String × Nat) :=
  [("星期一", 1), ("星期二", 2), ("星期三", 3), ("星期四", 4), ("星期五", 5),
   ("星期六", 6), ("星期日", 7),
   ("Monday", 1), ("Tuesday", 2), ("Wednesday", 3), ("Thursday", 4),
   ("Friday", 5), ("Saturday", 6), ("Sunday", 7)]

/-- `_find_weekday_headers`.  Modelled from the spec: scan the rows for the
first row whose cells match at least two weekday tokens; return its index and
the matching columns `(column, token, weekday number)`.  When no such row
exists the column list is empty. -/
def find_weekday_headers (df : DataFrame) : Nat × List (Nat × String × Nat) :=
  let rowMatches := fun r =>
    (List.range df.ncols).filterMap (fun c =>
      match weekday_tokens.lookup (pyStrip (df.cell r c)) with
      | some n => some (c, pyStrip (df.cell r c), n)
      | none => none)
  match (List.range df.nrows).find? (fun r => 2 ≤ (rowMatches r).length) with
  | some r => (r, rowMatches r)
  | none => (0, [])

/-- `_extract_base_date`.  Modelled from the spec: determine the base date of
the week by scanning the cells for the first token that parses as a full
date; `none` when no cell does. -/
def extract_base_date (df : DataFrame) : Option PyDate :=
  (((List.range df.nrows).map (fun r =>
      (List.range df.ncols).map (fun c => pyStrip (df.cell r c)))).flatten).findSome?
    (fun v => match strptimeYMD v with
      | some (y, m, d) => some ⟨y, m, d⟩
      | none => none)

/-- The successor of a date in the Gregorian calendar. -/
def nextDay (d : PyDate) : PyDate :=
  if d.day + 1 ≤ daysInMonth d.year d.month then ⟨d.year, d.month, d.day + 1⟩
  else if d.month + 1 ≤ 12 then ⟨d.year, d.month + 1, 1⟩
  else ⟨d.year + 1, 1, 1⟩

/-- Date addition by a number of days. -/
def addDays (d : PyDate) : Nat → PyDate
  | 0 => d
  | n + 1 => addDays (nextDay d) n

/-- `_calculate_date_for_weekday`.  Modelled from the spec: the date of
weekday number `n` in the week that starts at the base date. -/
def calculate_date_for_weekday (base : PyDate) (weekday_num : Nat) : PyDate :=
  addDays base (weekday_num - 1)

/-- Decimal digits of a natural number (fuel-bounded, structural). -/
def natDigits : Nat → Nat → List Char
  | 0, _ => []
  | fuel + 1, n =>
    let dig := ['0', '1', '2', '3', '4', '5', '6', '7', '8', '9'].getD (n % 10) '0'
    if n < 10 then [dig] else natDigits fuel (n / 10) ++ [dig]

/-- Decimal rendering of an integer. -/
def intStr (i : Int) : String :=
  if i < 0 then ⟨'-' :: natDigits 12 i.natAbs⟩ else ⟨natDigits 12 i.toNat⟩

/-- `strftime("%Y-%m-%d")`: zero-padded month and day. -/
def dateStr (d : PyDate) : String :=
  let pad2 := fun (n : Int) => if 0 ≤ n ∧ n < 10 then "0" ++ intStr n else intStr n
  intStr d.year ++ "-" ++ pad2 d.month ++ "-" ++ pad2 d.day

/-- Lexicographic character-list order (Python string comparison). -/
def charsLe : List Char → List Char → Bool
  | [], _ => true
  | _ :: _, [] => false
  | a :: as, b :: bs => if a = b then charsLe as bs else decide (a < b)

/-- Stable insertion into a list sorted by date string. -/
def insertByDate (x : MenuData) : List MenuData → List MenuData
  | [] => [x]
  | y :: ys =>
    if charsLe x.date.data y.date.data then x :: y :: ys else y :: insertByDate x ys

/-- Python's stable `sorted(result, key=lambda x: x.date)`. -/
def sortByDate (l : List MenuData) : List MenuData :=
  l.foldr insertByDate []

/-- `_parse_horizontal_weekly_format`: locate the weekday header row, identify
the meal segments, extract the base date, build one `MenuData` per weekday
column that yields at least one meal; the three `ExcelParsingError` raises
become `Except.error`. -/
def parse_horizontal_weekly_format (df : DataFrame) :
    Except String (List MenuData) :=
  let wk := find_weekday_headers df
  let weekday_row_idx := wk.1
  let weekday_cols := wk.2
  if weekday_cols.isEmpty then
    .error "Could not find weekday headers in horizontal format"
  else
    let meal_segments := identify_meal_segments df weekday_row_idx
    match extract_base_date df with
    | none => .error "Could not determine base date for horizontal weekly format"
    | some base_date =>
      let result := weekday_cols.filterMap (fun wc =>
        let menu_date := calculate_date_for_weekday base_date wc.2.2
        let meals := build_meals_for_col df meal_segments wc.1
        if meals.isEmpty then none else some ⟨dateStr menu_date, meals⟩)
      if result.isEmpty then
        .error "No valid menu data found in horizontal weekly format"
      else .ok (sortByDate result)

/-! ## Statement predicates for the segmentation scan -/

/-- A segment carries its introducing separator's meal-period label when that
separator has one, and the content-inferred period otherwise.  The first
segment (starting right below the weekday header) has no introducing
separator. -/
def segment_label_spec (df : DataFrame) (wri : Nat) (seg : MealSegment) : Prop :=
  seg.meal_type =
    ((if wri + 1 < seg.start_row then
        extract_meal_type_from_separator (pyStrip (df.cell (seg.start_row - 1) 0))
      else none).getD (infer_meal_type_from_content df seg.start_row seg.end_row))

/-- Invariant of the segmentation scan state: either no separator has been
seen (the current segment starts right below the weekday header and no period
is pending), or the current segment start follows its introducing separator
row, whose label is the pending period. -/
def scan_state_spec (df : DataFrame) (wri : Nat) (start : Nat)
    (cur : Option String) : Prop :=
  (start = wri + 1 ∧ cur = none) ∨
  (wri + 1 < start ∧
    cur = extract_meal_type_from_separator (pyStrip (df.cell (start - 1) 0)))

/-! ## Concrete grids used to settle the claims -/

/-- A grid whose single segment is introduced by the explicit separator
`晚餐` (dinner). -/
def dfDinnerLabel : DataFrame :=
  ⟨[["星期一", "星期二"], ["晚餐", ""], ["青菜", "汤"]], 2⟩

/-- A two-segment grid where the second segment has no dish in the
`星期二` column. -/
def dfTwoSegs : DataFrame :=
  ⟨[["", "星期一", "星期二"],
    ["粥品", "小米粥", "大米粥"],
    ["类别", "", ""],
    ["荤菜", "红烧肉", ""]], 3⟩

/-- A segment whose first dish precedes every category cell and which later
contains the explicit category `其他`. -/
def dfOtherClash : DataFrame :=
  ⟨[["", "煎饼"], ["荤菜", "红烧肉"], ["其他", "凉拌菜"]], 2⟩

/-- A segment with category cells `["粥品", "", ""]` over three dish rows. -/
def dfCatCont : DataFrame :=
  ⟨[["粥品", "小米粥"], ["", "大米粥"], ["", "黑米粥"]], 2⟩

/-- A complete horizontal-weekly grid: title date, weekday header row, two
segments separated by a `类别` row. -/
def dfWeekly : DataFrame :=
  ⟨[["2026-01-05", "", ""],
    ["", "星期一", "星期二"],
    ["粥品", "小米粥", "大米粥"],
    ["类别", "", ""],
    ["荤菜", "红烧肉", ""]], 3⟩

/-! # Theorems -/

/-- Claim C1: segment-count normalization.  Exactly one segment: its period
becomes lunch.  Exactly two: breakfast then lunch in row order.  Three or
more: exactly three segments remain, breakfast, lunch, dinner in row order,
and the dinner segment's end row is the end row of the last pre-merge
segment. -/
theorem c1_segment_count_normalization :
    (∀ s : MealSegment,
      validate_and_adjust_segments [s] = [{ s with meal_type := "lunch" }]) ∧
    (∀ s1 s2 : MealSegment,
      validate_and_adjust_segments [s1, s2] =
        [{ s1 with meal_type := "breakfast" }, { s2 with meal_type := "lunch" }]) ∧
    (∀ (s1 s2 s3 : MealSegment) (rest : List MealSegment),
      validate_and_adjust_segments (s1 :: s2 :: s3 :: rest) =
        [{ s1 with meal_type := "breakfast" },
         { s2 with meal_type := "lunch" },
         { s3 with
            meal_type := "dinner"
            end_row := ((s1 :: s2 :: s3 :: rest).getLastD s3).end_row }]) := by
  refine ⟨fun s => rfl, fun s1 s2 => rfl, fun s1 s2 s3 rest => ?_⟩
  simp only [validate_and_adjust_segments, List.getLastD_cons]

/-- Claim C9: storing a menu under a well-formed `YYYY-MM-DD` date string and
retrieving by the same string returns the stored meal list. -/
theorem c9_store_get_roundtrip :
    ∀ (st : CrossYearMenuStorage) (date_str : String) (meals : List Meal)
      (y m d : Int), strptimeYMD date_str = some (y, m, d) →
      ∃ st', store_menu_data st date_str meals = some st' ∧
        get_menu_by_date st' date_str = some meals := by
  intro st date_str meals y m d h
  refine ⟨_, by rw [store_menu_data, h], ?_⟩
  simp [get_menu_by_date]

/-- Witness for C9 at a concrete date string and meal list. -/
theorem c9_store_get_roundtrip_witness :
    strptimeYMD "2025-12-30" = some (2025, 12, 30) ∧
    ∃ st', store_menu_data CrossYearMenuStorage.empty "2025-12-30"
        [⟨"lunch", "12:00", []⟩] = some st' ∧
      get_menu_by_date st' "2025-12-30" = some [⟨"lunch", "12:00", []⟩] :=
  ⟨by decide, c9_store_get_roundtrip CrossYearMenuStorage.empty "2025-12-30"
    [⟨"lunch", "12:00", []⟩] 2025 12 30 (by decide)⟩

/-- The first-minimum fold of Python's `min` returns a member of the list it
is folded over. -/
theorem pyFoldMin_mem (cs : List (Int × Int)) :
    ∀ c : Int × Int,
      cs.foldl (fun best x => if x.2 < best.2 then x else best) c ∈ c :: cs := by
  induction cs with
  | nil => intro c; simp
  | cons x xs ih =>
    intro c
    simp only [List.foldl_cons]
    by_cases hx : x.2 < c.2
    · rw [if_pos hx]
      exact List.mem_cons_of_mem c (ih x)
    · rw [if_neg hx]
      rcases List.mem_cons.mp (ih c) with h | h
      · rw [h]; exact List.mem_cons_self c (x :: xs)
      · exact List.mem_cons_of_mem _ (List.mem_cons_of_mem _ h)

/-- Claim C10: for any month and any reference month, the previous-year
candidate is always within the six-months-future window, so the
valid-candidate set of the distance-based inference is non-empty (the final
fallback is unreachable) and the returned year places the month at most six
months after the reference month. -/
theorem c10_valid_candidates_nonempty :
    ∀ (month current_year current_month : Int),
      month ≤ 12 → 1 ≤ current_month →
      (current_year - 1) * 12 + month ≤ current_year * 12 + current_month + 6 ∧
      valid_candidates month current_year current_month ≠ [] ∧
      infer_year_with_distance_core month current_year current_month * 12 + month ≤
        current_year * 12 + current_month + 6 := by
  intro month y0 m0 h12 h1
  have hmem : (y0 - 1,
      |(y0 - 1) * 12 + month - y0 * 12 - m0|) ∈ valid_candidates month y0 m0 := by
    rw [valid_candidates, List.mem_filter]
    refine ⟨by simp [year_candidates], ?_⟩
    simp only [decide_eq_true_eq]
    omega
  refine ⟨by omega, List.ne_nil_of_mem hmem, ?_⟩
  rw [infer_year_with_distance_core]
  rcases hv : valid_candidates month y0 m0 with _ | ⟨c, cs⟩
  · exact absurd hv (List.ne_nil_of_mem hmem)
  · have hres := pyFoldMin_mem cs c
    rw [← hv] at hres
    have hfil := (List.mem_filter.mp hres).2
    simp only [decide_eq_true_eq] at hfil
    exact hfil

/-- Witness for C10 at month 12 and reference month January 2026. -/
theorem c10_valid_candidates_nonempty_witness :
    (12 : Int) ≤ 12 ∧ (1 : Int) ≤ 1 ∧
    (((2026 : Int) - 1) * 12 + 12 ≤ 2026 * 12 + 1 + 6 ∧
      valid_candidates 12 2026 1 ≠ [] ∧
      infer_year_with_distance_core 12 2026 1 * 12 + 12 ≤ 2026 * 12 + 1 + 6) :=
  ⟨by decide, by decide, c10_valid_candidates_nonempty 12 2026 1 (by decide) (by decide)⟩

/-- Closed form of the distance-based inference for calendar months: the
previous year when the month is at least six months past the reference month,
the next year when it is at least seven months before it, the reference year
otherwise. -/
theorem infer_core_eval (month y0 m0 : Int)
    (hm1 : 1 ≤ month) (hm2 : month ≤ 12) (hc1 : 1 ≤ m0) (hc2 : m0 ≤ 12) :
    infer_year_with_distance_core month y0 m0 =
      if m0 + 6 ≤ month then y0 - 1
      else if month + 7 ≤ m0 then y0 + 1
      else y0 := by
  have e1 : (y0 - 1) * 12 + month - y0 * 12 - m0 = month - m0 - 12 := by ring
  have e2 : y0 * 12 + month - y0 * 12 - m0 = month - m0 := by ring
  have e3 : (y0 + 1) * 12 + month - y0 * 12 - m0 = month - m0 + 12 := by ring
  have a1 : |(y0 - 1) * 12 + month - y0 * 12 - m0| = 12 + m0 - month := by
    rw [e1, abs_of_nonpos (by omega)]; ring
  have a3 : |(y0 + 1) * 12 + month - y0 * 12 - m0| = month + 12 - m0 := by
    rw [e3, abs_of_nonneg (by omega)]; ring
  have b1 : decide ((y0 - 1) * 12 + month ≤ y0 * 12 + m0 + 6) = true :=
    decide_eq_true (by omega)
  by_cases h2 : month ≤ m0 + 6
  · have b2 : decide (y0 * 12 + month ≤ y0 * 12 + m0 + 6) = true :=
      decide_eq_true (by omega)
    by_cases h3 : month + 6 ≤ m0
    · -- all three candidates valid
      have b3 : decide ((y0 + 1) * 12 + month ≤ y0 * 12 + m0 + 6) = true :=
        decide_eq_true (by omega)
      have a2 : |y0 * 12 + month - y0 * 12 - m0| = m0 - month := by
        rw [e2, abs_of_nonpos (by omega)]; ring
      simp only [infer_year_with_distance_core, valid_candidates, year_candidates,
        List.filter, b1, b2, b3, List.foldl_cons, List.foldl_nil, a1, a2, a3]
      split_ifs <;> omega
    · -- the next-year candidate is out of the window
      have b3 : decide ((y0 + 1) * 12 + month ≤ y0 * 12 + m0 + 6) = false :=
        decide_eq_false (by omega)
      simp only [infer_year_with_distance_core, valid_candidates, year_candidates,
        List.filter, b1, b2, b3, List.foldl_cons, List.foldl_nil, a1]
      by_cases hs : m0 ≤ month
      · have a2 : |y0 * 12 + month - y0 * 12 - m0| = month - m0 := by
          rw [e2, abs_of_nonneg (by omega)]
        rw [a2]; split_ifs <;> omega
      · have a2 : |y0 * 12 + month - y0 * 12 - m0| = m0 - month := by
          rw [e2, abs_of_nonpos (by omega)]; ring
        rw [a2]; split_ifs <;> omega
  · -- only the previous-year candidate is valid
    have b2 : decide (y0 * 12 + month ≤ y0 * 12 + m0 + 6) = false :=
      decide_eq_false (by omega)
    have b3 : decide ((y0 + 1) * 12 + month ≤ y0 * 12 + m0 + 6) = false :=
      decide_eq_false (by omega)
    simp only [infer_year_with_distance_core, valid_candidates, year_candidates,
      List.filter, b1, b2, b3, List.foldl_cons, List.foldl_nil]
    split_ifs <;> omega

/-- Claim C3, counterexample: the month/day token path of the extractor uses
the window-based `infer_year_for_month`, and under reference date 2025-06-15
it assigns month 7 the year 2024 although the candidate year 2025 is within
the six-months-future window and strictly closer in month distance — so token
year inference does not follow the distance-minimizing rule. -/
theorem c3_token_year_not_distance_minimizing :
    extract_dates_from_token (.monthDay 7 1) ⟨2025, 6, 15⟩ = [⟨2024, 7, 1⟩] ∧
    (2025 : Int) * 12 + 7 ≤ 2025 * 12 + 6 + 6 ∧
    |(2025 : Int) * 12 + 7 - 2025 * 12 - 6| <
      |(2024 : Int) * 12 + 7 - 2025 * 12 - 6| := by
  refine ⟨by decide, by decide, by decide⟩

/-- Claim C3, amended: the distance-based inference
`infer_year_with_distance` does return the candidate year among
`{y0-1, y0, y0+1}` that minimizes absolute month distance to the reference
month among candidates at most six months in the future, ties resolving
toward the past; and the three boundary examples hold on the token extractor:
reference 2026-01-15 gives year 2025 for "12/8" and 2026 for "1/4", and
reference 2025-12-31 gives 2026 for "1/2".  (The extractor's general-month
behaviour is window-based, per the counterexample.) -/
theorem c3_distance_rule_and_boundary_examples :
    (∀ (month y0 m0 : Int), 1 ≤ month → month ≤ 12 → 1 ≤ m0 → m0 ≤ 12 →
      (infer_year_with_distance_core month y0 m0 = y0 - 1 ∨
       infer_year_with_distance_core month y0 m0 = y0 ∨
       infer_year_with_distance_core month y0 m0 = y0 + 1) ∧
      infer_year_with_distance_core month y0 m0 * 12 + month ≤ y0 * 12 + m0 + 6 ∧
      (∀ y : Int, (y = y0 - 1 ∨ y = y0 ∨ y = y0 + 1) →
        y * 12 + month ≤ y0 * 12 + m0 + 6 →
        |infer_year_with_distance_core month y0 m0 * 12 + month - y0 * 12 - m0| ≤
          |y * 12 + month - y0 * 12 - m0| ∧
        (|y * 12 + month - y0 * 12 - m0| =
            |infer_year_with_distance_core month y0 m0 * 12 + month - y0 * 12 - m0| →
          infer_year_with_distance_core month y0 m0 ≤ y))) ∧
    (∀ (month : Int) (cd clk : PyDate),
      infer_year_with_distance month (some cd) clk =
        infer_year_with_distance_core month cd.year cd.month) ∧
    extract_dates_from_token (.monthDay 12 8) ⟨2026, 1, 15⟩ = [⟨2025, 12, 8⟩] ∧
    extract_dates_from_token (.monthDay 1 4) ⟨2026, 1, 15⟩ = [⟨2026, 1, 4⟩] ∧
    extract_dates_from_token (.monthDay 1 2) ⟨2025, 12, 31⟩ = [⟨2026, 1, 2⟩] ∧
    infer_year_with_distance 12 (some ⟨2026, 1, 15⟩) ⟨2026, 1, 15⟩ = 2025 ∧
    infer_year_with_distance 1 (some ⟨2026, 1, 15⟩) ⟨2026, 1, 15⟩ = 2026 ∧
    infer_year_with_distance 1 (some ⟨2025, 12, 31⟩) ⟨2025, 12, 31⟩ = 2026 := by
  refine ⟨?_, fun month cd clk => rfl, by decide, by decide, by decide,
    by decide, by decide, by decide⟩
  intro month y0 m0 h1 h2 h3 h4
  have hev := infer_core_eval month y0 m0 h1 h2 h3 h4
  have a1 : |(y0 - 1) * 12 + month - y0 * 12 - m0| = 12 + m0 - month := by
    rw [show (y0 - 1) * 12 + month - y0 * 12 - m0 = month - m0 - 12 by ring,
      abs_of_nonpos (by omega)]
    ring
  have a3 : |(y0 + 1) * 12 + month - y0 * 12 - m0| = month + 12 - m0 := by
    rw [show (y0 + 1) * 12 + month - y0 * 12 - m0 = month - m0 + 12 by ring,
      abs_of_nonneg (by omega)]
    ring
  by_cases hA : m0 + 6 ≤ month
  · rw [if_pos hA] at hev
    have a2 : |y0 * 12 + month - y0 * 12 - m0| = month - m0 := by
      rw [show y0 * 12 + month - y0 * 12 - m0 = month - m0 by ring,
        abs_of_nonneg (by omega)]
    refine ⟨Or.inl hev, by rw [hev]; omega, ?_⟩
    intro y hy hvalid
    rcases hy with rfl | rfl | rfl <;> simp only [hev, a1, a2, a3] <;>
      exact ⟨by omega, fun hh => by omega⟩
  · by_cases hB : month + 7 ≤ m0
    · rw [if_neg hA, if_pos hB] at hev
      have a2 : |y0 * 12 + month - y0 * 12 - m0| = m0 - month := by
        rw [show y0 * 12 + month - y0 * 12 - m0 = month - m0 by ring,
          abs_of_nonpos (by omega)]
        ring
      refine ⟨Or.inr (Or.inr hev), by rw [hev]; omega, ?_⟩
      intro y hy hvalid
      rcases hy with rfl | rfl | rfl <;> simp only [hev, a1, a2, a3] <;>
        exact ⟨by omega, fun hh => by omega⟩
    · rw [if_neg hA, if_neg hB] at hev
      refine ⟨Or.inr (Or.inl hev), by rw [hev]; omega, ?_⟩
      intro y hy hvalid
      by_cases hs : m0 ≤ month
      · have a2 : |y0 * 12 + month - y0 * 12 - m0| = month - m0 := by
          rw [show y0 * 12 + month - y0 * 12 - m0 = month - m0 by ring,
            abs_of_nonneg (by omega)]
        rcases hy with rfl | rfl | rfl <;> simp only [hev, a1, a2, a3] <;>
          exact ⟨by omega, fun hh => by omega⟩
      · have a2 : |y0 * 12 + month - y0 * 12 - m0| = m0 - month := by
          rw [show y0 * 12 + month - y0 * 12 - m0 = month - m0 by ring,
            abs_of_nonpos (by omega)]
          ring
        rcases hy with rfl | rfl | rfl <;> simp only [hev, a1, a2, a3] <;>
          exact ⟨by omega, fun hh => by omega⟩

/-- Witness for the amended C3 at month 12 with reference December 2025. -/
theorem c3_distance_rule_witness :
    (1 : Int) ≤ 12 ∧ (12 : Int) ≤ 12 ∧ (1 : Int) ≤ 12 ∧
    ((infer_year_with_distance_core 12 2025 12 = 2025 - 1 ∨
      infer_year_with_distance_core 12 2025 12 = 2025 ∨
      infer_year_with_distance_core 12 2025 12 = 2025 + 1) ∧
     infer_year_with_distance_core 12 2025 12 * 12 + 12 ≤ 2025 * 12 + 12 + 6 ∧
     (∀ y : Int, (y = 2025 - 1 ∨ y = 2025 ∨ y = 2025 + 1) →
       y * 12 + 12 ≤ 2025 * 12 + 12 + 6 →
       |infer_year_with_distance_core 12 2025 12 * 12 + 12 - 2025 * 12 - 12| ≤
         |y * 12 + 12 - 2025 * 12 - 12| ∧
       (|y * 12 + 12 - 2025 * 12 - 12| =
           |infer_year_with_distance_core 12 2025 12 * 12 + 12 - 2025 * 12 - 12| →
         infer_year_with_distance_core 12 2025 12 ≤ y))) :=
  ⟨by decide, by decide, by decide,
   c3_distance_rule_and_boundary_examples.1 12 2025 12
     (by decide) (by decide) (by decide) (by decide)⟩

/-- Membership in an inclusive integer range. -/
theorem mem_intRange {a b d : Int} : d ∈ intRange a b ↔ a ≤ d ∧ d ≤ b := by
  unfold intRange
  simp only [List.mem_map, List.mem_range]
  constructor
  · rintro ⟨i, hi, rfl⟩
    omega
  · rintro ⟨h1, h2⟩
    exact ⟨(d - a).toNat, by omega, by omega⟩

/-- An empty inclusive integer range. -/
theorem intRange_eq_nil {a b : Int} (h : b < a) : intRange a b = [] := by
  unfold intRange
  rw [show (b + 1 - a).toNat = 0 by omega]
  rfl

/-- Unfolding one element of an inclusive integer range. -/
theorem intRange_cons {a b : Int} (h : a ≤ b) :
    intRange a b = a :: intRange (a + 1) b := by
  unfold intRange
  rw [show (b + 1 - a).toNat = (b + 1 - (a + 1)).toNat + 1 by omega,
    List.range_succ_eq_map, List.map_cons, List.map_map]
  refine congrArg₂ _ (by simp) (List.map_congr_left ?_)
  intro i _
  show a + ((i : Int) + 1) = a + 1 + (i : Int)
  ring

/-- Splitting an inclusive integer range at an interior point. -/
theorem intRange_append {a c b : Int} (h1 : a ≤ c + 1) (h2 : c ≤ b) :
    intRange a b = intRange a c ++ intRange (c + 1) b := by
  obtain ⟨n, hn⟩ : ∃ n : Nat, c + 1 - a = (n : Int) := ⟨(c + 1 - a).toNat, by omega⟩
  induction n generalizing a with
  | zero =>
    rw [intRange_eq_nil (show c < a by omega)]
    rw [show a = c + 1 by omega]
    rfl
  | succ k ih =>
    have ha : a ≤ c := by omega
    rw [intRange_cons (le_trans ha h2), intRange_cons ha,
      ih (by omega) (by omega), List.cons_append]

/-- `takeValidDates` over a list of valid days builds one date per day. -/
theorem takeValidDates_all_valid (y m : Int) (hm1 : 1 ≤ m) (hm2 : m ≤ 12) :
    ∀ ds : List Int, (∀ d ∈ ds, 1 ≤ d ∧ d ≤ daysInMonth y m) →
      takeValidDates y m ds = ds.map (fun d => ⟨y, m, d⟩) := by
  intro ds
  induction ds with
  | nil => intro _; rfl
  | cons d ds ih =>
    intro h
    have hd := h d (List.mem_cons_self d ds)
    have hmk : mkDate y m d = some ⟨y, m, d⟩ := by
      rw [mkDate, if_pos ⟨hm1, hm2, hd.1, hd.2⟩]
    rw [takeValidDates, hmk, ih (fun x hx => h x (List.mem_cons_of_mem d hx)),
      List.map_cons]

/-- `takeValidDates` over a concatenation whose first part is all valid. -/
theorem takeValidDates_append (y m : Int) (hm1 : 1 ≤ m) (hm2 : m ≤ 12)
    (xs ys : List Int) (h : ∀ d ∈ xs, 1 ≤ d ∧ d ≤ daysInMonth y m) :
    takeValidDates y m (xs ++ ys) =
      xs.map (fun d => ⟨y, m, d⟩) ++ takeValidDates y m ys := by
  induction xs with
  | nil => rfl
  | cons d ds ih =>
    have hd := h d (List.mem_cons_self d ds)
    have hmk : mkDate y m d = some ⟨y, m, d⟩ := by
      rw [mkDate, if_pos ⟨hm1, hm2, hd.1, hd.2⟩]
    rw [List.cons_append, takeValidDates, hmk,
      ih (fun x hx => h x (List.mem_cons_of_mem d hx)), List.map_cons,
      List.cons_append]

/-- `takeValidDates` stops at an invalid leading day. -/
theorem takeValidDates_head_invalid (y m d : Int) (ds : List Int)
    (h : mkDate y m d = none) : takeValidDates y m (d :: ds) = [] := by
  rw [takeValidDates, h]

/-- Every month has between 28 and 31 days. -/
theorem daysInMonth_bounds (y m : Int) :
    28 ≤ daysInMonth y m ∧ daysInMonth y m ≤ 31 := by
  rw [daysInMonth]
  split_ifs <;> omega

/-- The `break`-loop over days `a..31` yields exactly the days `a..` to the
end of the month. -/
theorem takeValidDates_range31 (y m a : Int) (hm1 : 1 ≤ m) (hm2 : m ≤ 12)
    (ha : 1 ≤ a) :
    takeValidDates y m (intRange a 31) =
      (intRange a (daysInMonth y m)).map (fun d => ⟨y, m, d⟩) := by
  obtain ⟨hd28, hd31⟩ := daysInMonth_bounds y m
  by_cases hcase : a ≤ daysInMonth y m
  · rw [intRange_append (show a ≤ daysInMonth y m + 1 by omega) hd31,
      takeValidDates_append y m hm1 hm2 _ _
        (fun d hd => by
          have := mem_intRange.mp hd
          omega)]
    have htail : takeValidDates y m (intRange (daysInMonth y m + 1) 31) = [] := by
      by_cases h31 : daysInMonth y m + 1 ≤ 31
      · rw [intRange_cons h31]
        exact takeValidDates_head_invalid y m _ _
          (by rw [mkDate, if_neg (by omega)])
      · rw [intRange_eq_nil (by omega)]
        rfl
    rw [htail, List.append_nil]
  · rw [intRange_eq_nil (show daysInMonth y m < a by omega), List.map_nil]
    by_cases h31 : a ≤ 31
    · rw [intRange_cons h31]
      exact takeValidDates_head_invalid y m _ _
        (by rw [mkDate, if_neg (by omega)])
    · rw [intRange_eq_nil (by omega)]
      rfl

/-- Claim C4, counterexample: the cross-year range `12月29-1月2日` with
reference date 2025-12-15 expands to five dates, not six. -/
theorem c4_cross_year_range_has_five_dates :
    (handle_cross_year_range 12 29 1 2 ⟨2025, 12, 15⟩).length = 5 ∧
    (handle_cross_year_range 12 29 1 2 ⟨2025, 12, 15⟩).length ≠ 6 := by
  refine ⟨by decide, by decide⟩

/-- Claim C4, amended: for a day range whose end month is numerically smaller
than its start month, expansion yields one date per day — the days from the
start day to the end of the start month in the inferred start year, followed
by the days 1 to the end day of the end month in the next year; in
particular `12月29-1月2日` with reference date 2025-12-15 expands to the five
dates 2025-12-29 … 2026-01-02 in order. -/
theorem c4_cross_year_range_expansion :
    (∀ (start_month start_day end_month end_day : Int) (clock : PyDate),
      1 ≤ end_month → end_month < start_month → start_month ≤ 12 →
      1 ≤ start_day → 1 ≤ end_day →
      end_day ≤ daysInMonth (infer_year_for_month start_month none clock + 1) end_month →
      handle_cross_year_range start_month start_day end_month end_day clock =
        (intRange start_day
            (daysInMonth (infer_year_for_month start_month none clock) start_month)).map
          (fun d => ⟨infer_year_for_month start_month none clock, start_month, d⟩) ++
        (intRange 1 end_day).map
          (fun d => ⟨infer_year_for_month start_month none clock + 1, end_month, d⟩)) ∧
    handle_cross_year_range 12 29 1 2 ⟨2025, 12, 15⟩ =
      [⟨2025, 12, 29⟩, ⟨2025, 12, 30⟩, ⟨2025, 12, 31⟩, ⟨2026, 1, 1⟩, ⟨2026, 1, 2⟩] := by
  refine ⟨?_, by decide⟩
  intro sm sd em ed clock h1 h2 h3 h4 h5 h6
  rw [handle_cross_year_range]
  simp only [if_pos h2]
  rw [takeValidDates_range31 _ sm sd (by omega) h3 h4,
    takeValidDates_all_valid _ em h1 (by omega) (intRange 1 ed)
      (fun d hd => by
        have := mem_intRange.mp hd
        omega)]

/-- Witness for the amended C4 at the concrete range `12月29-1月2日`. -/
theorem c4_cross_year_range_expansion_witness :
    ((1 : Int) ≤ 1 ∧ (1 : Int) < 12 ∧ (12 : Int) ≤ 12 ∧ (1 : Int) ≤ 29 ∧
      (1 : Int) ≤ 2 ∧
      (2 : Int) ≤ daysInMonth (infer_year_for_month 12 none ⟨2025, 12, 15⟩ + 1) 1) ∧
    handle_cross_year_range 12 29 1 2 ⟨2025, 12, 15⟩ =
      (intRange 29 (daysInMonth (infer_year_for_month 12 none ⟨2025, 12, 15⟩) 12)).map
        (fun d => ⟨infer_year_for_month 12 none ⟨2025, 12, 15⟩, 12, d⟩) ++
      (intRange 1 2).map
        (fun d => ⟨infer_year_for_month 12 none ⟨2025, 12, 15⟩ + 1, 1, d⟩) :=
  ⟨⟨by decide, by decide, by decide, by decide, by decide, by decide⟩,
   c4_cross_year_range_expansion.1 12 29 1 2 ⟨2025, 12, 15⟩
     (by decide) (by decide) (by decide) (by decide) (by decide) (by decide)⟩

/-- Claim C8, counterexample: the extractor has no reference-date parameter;
its year inference reads the process clock, so the same token yields
different date lists under different clock values. -/
theorem c8_extraction_depends_on_clock :
    extract_dates_from_token (.monthDay 12 8) ⟨2026, 1, 15⟩ = [⟨2025, 12, 8⟩] ∧
    extract_dates_from_token (.monthDay 12 8) ⟨2025, 6, 15⟩ = [⟨2024, 12, 8⟩] ∧
    extract_dates_from_token (.monthDay 12 8) ⟨2026, 1, 15⟩ ≠
      extract_dates_from_token (.monthDay 12 8) ⟨2025, 6, 15⟩ := by
  refine ⟨by decide, by decide, by decide⟩

/-- The window-based inference on the clock depends on the clock only through
its year and month. -/
theorem infer_year_for_month_clock_year_month (m : Int) (c1 c2 : PyDate)
    (hy : c1.year = c2.year) (hm : c1.month = c2.month) :
    infer_year_for_month m none c1 = infer_year_for_month m none c2 := by
  rw [infer_year_for_month, infer_year_for_month]
  simp only [Option.getD_none]
  rw [hy, hm]

/-- Claim C8, amended: date extraction is a function of the token and of the
process-clock date at call time (it has no separate reference-date
parameter), and it depends on the clock only through the clock's year and
month — two runs under clocks agreeing on year and month yield the identical
list. -/
theorem c8_extraction_deterministic_in_clock :
    ∀ (tok : DateToken) (c1 c2 : PyDate),
      c1.year = c2.year → c1.month = c2.month →
      extract_dates_from_token tok c1 = extract_dates_from_token tok c2 := by
  intro tok c1 c2 hy hm
  cases tok with
  | fullDate y m d => rfl
  | monthDay m d =>
    simp only [extract_dates_from_token,
      infer_year_for_month_clock_year_month m c1 c2 hy hm]
  | monthDayRange m d1 d2 =>
    simp only [extract_dates_from_token,
      infer_year_for_month_clock_year_month m c1 c2 hy hm]

/-- Witness for the amended C8: two clock values in the same month. -/
theorem c8_extraction_deterministic_in_clock_witness :
    (⟨2026, 1, 15⟩ : PyDate).year = (⟨2026, 1, 20⟩ : PyDate).year ∧
    (⟨2026, 1, 15⟩ : PyDate).month = (⟨2026, 1, 20⟩ : PyDate).month ∧
    extract_dates_from_token (.monthDay 12 8) ⟨2026, 1, 15⟩ =
      extract_dates_from_token (.monthDay 12 8) ⟨2026, 1, 20⟩ :=
  ⟨rfl, rfl, c8_extraction_deterministic_in_clock (.monthDay 12 8)
    ⟨2026, 1, 15⟩ ⟨2026, 1, 20⟩ rfl rfl⟩

/-- The segmentation scan preserves the state invariant and the label
property of every emitted segment. -/
theorem identify_loop_spec (df : DataFrame) (wri : Nat) :
    ∀ (rows : List Nat) (segments : List MealSegment) (start : Nat)
      (cur : Option String),
      (∀ r ∈ rows, wri + 1 ≤ r) →
      scan_state_spec df wri start cur →
      (∀ s ∈ segments, segment_label_spec df wri s) →
      (∀ s ∈ (rows.foldl (identify_step df) (segments, start, cur)).1,
          segment_label_spec df wri s) ∧
      scan_state_spec df wri
        (rows.foldl (identify_step df) (segments, start, cur)).2.1
        (rows.foldl (identify_step df) (segments, start, cur)).2.2 := by
  intro rows
  induction rows with
  | nil => exact fun segments start cur _ hst hsegs => ⟨hsegs, hst⟩
  | cons r rest ih =>
    intro segments start cur hrows hst hsegs
    rw [List.foldl_cons]
    have hr : wri + 1 ≤ r := hrows r (List.mem_cons_self r rest)
    have hrest : ∀ x ∈ rest, wri + 1 ≤ x :=
      fun x hx => hrows x (List.mem_cons_of_mem r hx)
    by_cases hsep : is_meal_separator df (pyStrip (df.cell r 0)) r
    · have hstep : identify_step df (segments, start, cur) r =
          ((if start < r then
              segments ++ [⟨start, r - 1,
                cur.getD (infer_meal_type_from_content df start (r - 1))⟩]
            else segments), r + 1,
            extract_meal_type_from_separator (pyStrip (df.cell r 0))) := by
        simp only [identify_step]
        rw [if_pos hsep]
      rw [hstep]
      apply ih _ _ _ hrest
      · right
        refine ⟨by omega, ?_⟩
        rw [Nat.add_sub_cancel]
      · intro s hs
        by_cases hlt : start < r
        · rw [if_pos hlt] at hs
          rcases List.mem_append.mp hs with h | h
          · exact hsegs s h
          · rw [List.mem_singleton] at h
            subst h
            rcases hst with ⟨hs1, hs2⟩ | ⟨hs1, hs2⟩
            · simp only [segment_label_spec, hs2, hs1, Option.getD_none,
                lt_irrefl, if_false]
            · simp only [segment_label_spec, hs2, if_pos hs1]
        · rw [if_neg hlt] at hs
          exact hsegs s hs
    · have hstep : identify_step df (segments, start, cur) r =
          (segments, start, cur) := by
        simp only [identify_step]
        rw [if_neg hsep]
      rw [hstep]
      exact ih _ _ _ hrest hst hsegs

/-- The label property holds for every segment of the pre-normalization
scan result. -/
theorem identify_meal_segments_raw_label (df : DataFrame) (wri : Nat) :
    ∀ seg ∈ identify_meal_segments_raw df wri, segment_label_spec df wri seg := by
  have hinit := identify_loop_spec df wri
    (List.range' (wri + 1) (df.nrows - (wri + 1))) [] (wri + 1) none
    (fun r hr => (List.mem_range'_1.mp hr).1) (Or.inl ⟨rfl, rfl⟩)
    (fun s hs => absurd hs (List.not_mem_nil s))
  obtain ⟨hsegs, hst⟩ := hinit
  intro seg hseg
  simp only [identify_meal_segments_raw] at hseg
  by_cases hfin :
      ((List.range' (wri + 1) (df.nrows - (wri + 1))).foldl (identify_step df)
        ([], wri + 1, none)).2.1 < df.nrows
  · rw [if_pos hfin] at hseg
    rcases List.mem_append.mp hseg with h | h
    · exact hsegs seg h
    · rw [List.mem_singleton] at h
      subst h
      rcases hst with ⟨hs1, hs2⟩ | ⟨hs1, hs2⟩
      · simp only [segment_label_spec, hs2, hs1, Option.getD_none,
          lt_irrefl, if_false]
      · simp only [segment_label_spec, hs2, if_pos hs1]
  · rw [if_neg hfin] at hseg
    exact hsegs seg hseg

/-- Python's first-maximum over a three-element score list: the result is one
of the three entries and its score dominates all of them. -/
theorem pyMaxBySnd_spec3 (a b c : String × Nat) :
    pyMaxBySnd [a, b, c] ∈ [a, b, c] ∧
    ∀ p ∈ [a, b, c], p.2 ≤ (pyMaxBySnd [a, b, c]).2 := by
  simp only [pyMaxBySnd, List.foldl_cons, List.foldl_nil]
  split_ifs <;> simp_all <;> omega

/-- Claim C5, counterexample: in a grid whose single segment is introduced by
the explicit label `晚餐` (dinner), the returned segment sequence assigns it
lunch — the count normalization overrides the separator label. -/
theorem c5_label_overridden_by_normalization :
    pyStrip (dfDinnerLabel.cell 1 0) = "晚餐" ∧
    extract_meal_type_from_separator (pyStrip (dfDinnerLabel.cell 1 0)) =
      some "dinner" ∧
    identify_meal_segments_raw dfDinnerLabel 0 = [⟨2, 2, "dinner"⟩] ∧
    identify_meal_segments dfDinnerLabel 0 = [⟨2, 2, "lunch"⟩] := by
  refine ⟨by decide, by decide, by decide, by decide⟩

/-- Claim C5, amended: in the segment sequence built by the scan — before the
count normalization that the identifier applies last — a segment introduced
by a separator carrying a meal-period label is assigned exactly that period,
and only segments without such a label are classified by keyword/category
scoring of their aggregated text, taking the (first) highest-scoring period
and defaulting to lunch when every period scores zero. -/
theorem c5_separator_label_and_content_scoring :
    (∀ (df : DataFrame) (wri : Nat) (seg : MealSegment),
      seg ∈ identify_meal_segments_raw df wri → segment_label_spec df wri seg) ∧
    (∀ (df : DataFrame) (s e : Nat),
      (infer_meal_type_from_content df s e = "breakfast" ∨
       infer_meal_type_from_content df s e = "lunch" ∨
       infer_meal_type_from_content df s e = "dinner") ∧
      (∃ sr, (infer_meal_type_from_content df s e, sr) ∈
          content_scores (segment_content_text df s e) ∧
        ∀ p ∈ content_scores (segment_content_text df s e), p.2 ≤ sr) ∧
      ((∀ p ∈ content_scores (segment_content_text df s e), p.2 = 0) →
        infer_meal_type_from_content df s e = "lunch")) := by
  refine ⟨identify_meal_segments_raw_label, ?_⟩
  intro df s e
  obtain ⟨p1, p2, p3, hsc⟩ :
      ∃ x y z, content_scores (segment_content_text df s e) = [x, y, z] :=
    ⟨_, _, _, rfl⟩
  have hp1 : p1.1 = "breakfast" := by
    have := congrArg (fun l => (l.getD 0 ("", 0)).1) hsc
    simpa [content_scores, meal_indicators] using this.symm
  have hp2 : p2.1 = "lunch" := by
    have := congrArg (fun l => (l.getD 1 ("", 0)).1) hsc
    simpa [content_scores, meal_indicators] using this.symm
  have hp3 : p3.1 = "dinner" := by
    have := congrArg (fun l => (l.getD 2 ("", 0)).1) hsc
    simpa [content_scores, meal_indicators] using this.symm
  obtain ⟨hmem, hdom⟩ := pyMaxBySnd_spec3 p1 p2 p3
  have hinf : infer_meal_type_from_content df s e =
      (if (pyMaxBySnd [p1, p2, p3]).2 > 0 then (pyMaxBySnd [p1, p2, p3]).1
       else "lunch") := by
    rw [infer_meal_type_from_content, hsc]
  by_cases hpos : (pyMaxBySnd [p1, p2, p3]).2 > 0
  · rw [if_pos hpos] at hinf
    have hmem3 : pyMaxBySnd [p1, p2, p3] = p1 ∨ pyMaxBySnd [p1, p2, p3] = p2 ∨
        pyMaxBySnd [p1, p2, p3] = p3 := by
      simpa using hmem
    constructor
    · rcases hmem3 with h | h | h
      · exact Or.inl (by rw [hinf, h, hp1])
      · exact Or.inr (Or.inl (by rw [hinf, h, hp2]))
      · exact Or.inr (Or.inr (by rw [hinf, h, hp3]))
    constructor
    · refine ⟨(pyMaxBySnd [p1, p2, p3]).2, ?_, ?_⟩
      · rw [hsc, hinf]
        exact hmem
      · intro p hp
        rw [hsc] at hp
        exact hdom p hp
    · intro hall
      have := hall (pyMaxBySnd [p1, p2, p3]) (by rw [hsc]; exact hmem)
      omega
  · rw [if_neg hpos] at hinf
    refine ⟨Or.inr (Or.inl hinf), ⟨p2.2, ?_, ?_⟩, fun _ => hinf⟩
    · rw [hsc, hinf]
      have : ("lunch", p2.2) = p2 := by
        rw [← hp2]
      rw [this]
      exact List.mem_cons_of_mem _ (List.mem_cons_self _ _)
    · intro p hp
      rw [hsc] at hp
      have h0 : (pyMaxBySnd [p1, p2, p3]).2 = 0 := by omega
      have := hdom p hp
      omega

/-- Witness for the amended C5: the dinner-labelled segment of the concrete
grid carries its label in the scan result, and the scoring characterization
holds on a concrete segment. -/
theorem c5_separator_label_witness :
    ((⟨2, 2, "dinner"⟩ : MealSegment) ∈ identify_meal_segments_raw dfDinnerLabel 0 ∧
      segment_label_spec dfDinnerLabel 0 ⟨2, 2, "dinner"⟩) ∧
    ((infer_meal_type_from_content dfCatCont 0 2 = "breakfast" ∨
      infer_meal_type_from_content dfCatCont 0 2 = "lunch" ∨
      infer_meal_type_from_content dfCatCont 0 2 = "dinner") ∧
     (∃ sr, (infer_meal_type_from_content dfCatCont 0 2, sr) ∈
         content_scores (segment_content_text dfCatCont 0 2) ∧
       ∀ p ∈ content_scores (segment_content_text dfCatCont 0 2), p.2 ≤ sr) ∧
     ((∀ p ∈ content_scores (segment_content_text dfCatCont 0 2), p.2 = 0) →
       infer_meal_type_from_content dfCatCont 0 2 = "lunch")) :=
  ⟨⟨by decide,
    c5_separator_label_and_content_scoring.1 dfDinnerLabel 0 ⟨2, 2, "dinner"⟩
      (by decide)⟩,
   c5_separator_label_and_content_scoring.2 dfCatCont 0 2⟩

/-- A key present in an association list is still found after appending. -/
theorem lookup_append_left (m m' : List (String × Nat)) (c : String) (v : Nat)
    (h : m.lookup c = some v) : (m ++ m').lookup c = some v := by
  induction m with
  | nil => simp [List.lookup] at h
  | cons kv m ih =>
    obtain ⟨k, w⟩ := kv
    rw [List.cons_append]
    cases hck : c == k with
    | true =>
      rw [List.lookup] at h ⊢
      rw [hck] at h ⊢
      exact h
    | false =>
      rw [List.lookup] at h ⊢
      rw [hck] at h ⊢
      exact ih h

/-- A key absent from an association list is found at the appended tail. -/
theorem lookup_append_self (m : List (String × Nat)) (k : String) (o : Nat)
    (h : m.lookup k = none) : (m ++ [(k, o)]).lookup k = some o := by
  induction m with
  | nil => simp [List.lookup]
  | cons kv m ih =>
    obtain ⟨c, w⟩ := kv
    rw [List.cons_append]
    cases hck : k == c with
    | true =>
      rw [List.lookup, hck] at h
      exact absurd h (by simp)
    | false =>
      rw [List.lookup, hck] at h ⊢
      exact ih h

/-- The dish-splitting loop leaves the category state untouched and appends
items that all carry the pending category and its order. -/
theorem dish_fold_spec :
    ∀ (parts : List String) (st : ExtractState × List MenuItem),
      (parts.foldl dish_append_step st).1.current_category =
        st.1.current_category ∧
      (parts.foldl dish_append_step st).1.category_order_map =
        st.1.category_order_map ∧
      ∃ new, (parts.foldl dish_append_step st).2 = st.2 ++ new ∧
        ∀ i ∈ new, i.category = st.1.current_category.getD "其他" ∧
          i.category_order = st.1.orderOf := by
  intro parts
  induction parts with
  | nil =>
    intro st
    exact ⟨rfl, rfl, [], (List.append_nil _).symm, fun i hi => absurd hi (List.not_mem_nil i)⟩
  | cons p ps ih =>
    intro st
    rw [List.foldl_cons]
    obtain ⟨h1, h2, new, h3, h4⟩ := ih (dish_append_step st p)
    have hcc : (dish_append_step st p).1.current_category = st.1.current_category := rfl
    have hmap : (dish_append_step st p).1.category_order_map =
      st.1.category_order_map := rfl
    have hord : (dish_append_step st p).1.orderOf = st.1.orderOf := rfl
    refine ⟨h1.trans hcc, h2.trans hmap,
      ⟨p, st.1.current_category.getD "其他", none, none, st.1.item_order,
        st.1.orderOf⟩ :: new, ?_, ?_⟩
    · rw [h3]
      show (dish_append_step st p).2 ++ new = st.2 ++ _ :: new
      rw [dish_append_step]
      simp
    · intro i hi
      rcases List.mem_cons.mp hi with h | h
      · subst h
        exact ⟨rfl, rfl⟩
      · have := h4 i h
        rw [hcc, hord] at this
        exact this

/-- The category phase realizes `category_update` on the pending category. -/
theorem category_state_update_cc (df : DataFrame) (s : ExtractState)
    (row_idx : Nat) :
    (category_state_update df s row_idx).current_category =
      category_update df s.current_category row_idx := by
  rw [category_state_update, category_update]
  by_cases hcat : ¬ isBlankCell (pyStrip (df.cell row_idx 0)) ∧
      pyStrip (df.cell row_idx 0) ∉ ["类别", "早餐", "午餐", "晚餐"]
  · rw [if_pos hcat, if_pos hcat]
    by_cases habs :
        (s.category_order_map.lookup (pyStrip (df.cell row_idx 0))).isNone
    · rw [if_pos habs]
    · rw [if_neg habs]
  · rw [if_neg hcat, if_neg hcat]

/-- One row of the extraction: the category state is updated by the leading
cell, and the appended items all carry the updated pending category. -/
theorem row_step_spec (df : DataFrame) (col_idx : Nat)
    (st : ExtractState × List MenuItem) (row_idx : Nat) :
    (extract_row_step df col_idx st row_idx).1.current_category =
      category_update df st.1.current_category row_idx ∧
    ∃ new, (extract_row_step df col_idx st row_idx).2 = st.2 ++ new ∧
      ∀ i ∈ new, i.category =
        (category_update df st.1.current_category row_idx).getD "其他" := by
  rw [extract_row_step]
  simp only []
  rw [← category_state_update_cc df st.1 row_idx]
  by_cases hcol : col_idx < df.ncols
  · rw [if_pos hcol]
    by_cases hblank : isBlankCell (pyStrip (df.cell row_idx col_idx))
    · rw [if_pos hblank]
      exact ⟨rfl, [], (List.append_nil _).symm,
        fun i hi => absurd hi (List.not_mem_nil i)⟩
    · rw [if_neg hblank]
      obtain ⟨h1, _, new, h3, h4⟩ := dish_fold_spec _ _
      exact ⟨h1, new, h3, fun i hi => (h4 i hi).1⟩
  · rw [if_neg hcol]
    exact ⟨rfl, [], (List.append_nil _).symm,
      fun i hi => absurd hi (List.not_mem_nil i)⟩

/-- The category phase keeps the dictionary invariant and never changes an
existing dictionary entry. -/
theorem category_state_update_consistent (df : DataFrame) (s : ExtractState)
    (r : Nat) (hA : map_inv s) :
    map_inv (category_state_update df s r) ∧
    ∀ c v, s.category_order_map.lookup c = some v →
      (category_state_update df s r).category_order_map.lookup c = some v := by
  simp only [category_state_update]
  split_ifs with h1 h2
  · refine ⟨?_, fun c v hv => lookup_append_left _ _ _ _ hv⟩
    intro c hc
    have hc2 : pyStrip (df.cell r 0) = c := by simpa using hc
    subst hc2
    refine ⟨s.category_order, ?_⟩
    show (s.category_order_map ++
      [(pyStrip (df.cell r 0), s.category_order)]).lookup
        (pyStrip (df.cell r 0)) = some s.category_order
    exact lookup_append_self _ _ _ (by simpa using h2)
  · refine ⟨?_, fun c v hv => hv⟩
    intro c hc
    have hc2 : pyStrip (df.cell r 0) = c := by simpa using hc
    subst hc2
    rcases hx : s.category_order_map.lookup (pyStrip (df.cell r 0)) with _ | v
    · exact absurd (by simpa using hx) h2
    · exact ⟨v, rfl⟩
  · exact ⟨hA, fun c v hv => hv⟩

/-- The dish-splitting loop preserves both extraction invariants. -/
theorem dish_fold_consistent (parts : List String)
    (st : ExtractState × List MenuItem)
    (hA : map_inv st.1) (hB : items_consistent st.1 st.2) :
    map_inv (parts.foldl dish_append_step st).1 ∧
    items_consistent (parts.foldl dish_append_step st).1
      (parts.foldl dish_append_step st).2 := by
  obtain ⟨hcc, hmap, new, hitems, hprops⟩ := dish_fold_spec parts st
  constructor
  · intro c hc
    rw [hcc] at hc
    obtain ⟨v, hv⟩ := hA c hc
    exact ⟨v, by rw [hmap]; exact hv⟩
  · intro i hi hneq
    rw [hitems] at hi
    rw [hmap]
    rcases List.mem_append.mp hi with h | h
    · exact hB i h hneq
    · obtain ⟨hic, hio⟩ := hprops i h
      rcases hsc : st.1.current_category with _ | c
      · rw [hsc, Option.getD_none] at hic
        exact absurd hic hneq
      · rw [hsc, Option.getD_some] at hic
        obtain ⟨v, hv⟩ := hA c hsc
        have hov : st.1.orderOf = v := by
          simp only [ExtractState.orderOf, hsc, hv, Option.getD_some]
        rw [hic, hio, hov]
        exact hv

/-- One extraction row preserves both invariants. -/
theorem row_step_consistent (df : DataFrame) (col_idx : Nat)
    (st : ExtractState × List MenuItem) (r : Nat)
    (hA : map_inv st.1) (hB : items_consistent st.1 st.2) :
    map_inv (extract_row_step df col_idx st r).1 ∧
    items_consistent (extract_row_step df col_idx st r).1
      (extract_row_step df col_idx st r).2 := by
  obtain ⟨hA1, hmono⟩ := category_state_update_consistent df st.1 r hA
  have hB1 : items_consistent (category_state_update df st.1 r) st.2 :=
    fun i hi hne => hmono _ _ (hB i hi hne)
  rw [extract_row_step]
  simp only []
  by_cases hcol : col_idx < df.ncols
  · rw [if_pos hcol]
    by_cases hblank : isBlankCell (pyStrip (df.cell r col_idx))
    · rw [if_pos hblank]
      exact ⟨hA1, hB1⟩
    · rw [if_neg hblank]
      exact dish_fold_consistent _ _ hA1 hB1
  · rw [if_neg hcol]
    exact ⟨hA1, hB1⟩

/-- The whole extraction scan preserves both invariants. -/
theorem extract_fold_consistent (df : DataFrame) (col_idx : Nat) :
    ∀ (rows : List Nat) (st : ExtractState × List MenuItem),
      map_inv st.1 → items_consistent st.1 st.2 →
      map_inv ((rows.foldl (extract_row_step df col_idx) st)).1 ∧
      items_consistent ((rows.foldl (extract_row_step df col_idx) st)).1
        ((rows.foldl (extract_row_step df col_idx) st)).2 := by
  intro rows
  induction rows with
  | nil => exact fun st hA hB => ⟨hA, hB⟩
  | cons r rest ih =>
    intro st hA hB
    rw [List.foldl_cons]
    obtain ⟨hA1, hB1⟩ := row_step_consistent df col_idx st r hA hB
    exact ih _ hA1 hB1

/-- The pending category after the scan is the fold of the per-row category
updates. -/
theorem extract_fold_last_category (df : DataFrame) (col_idx : Nat) :
    ∀ (rows : List Nat) (st : ExtractState × List MenuItem),
      ((rows.foldl (extract_row_step df col_idx) st)).1.current_category =
        rows.foldl (category_update df) st.1.current_category := by
  intro rows
  induction rows with
  | nil => exact fun st => rfl
  | cons r rest ih =>
    intro st
    rw [List.foldl_cons, List.foldl_cons, ih,
      (row_step_spec df col_idx st r).1]

/-- Claim C6, counterexample: a dish emitted before any category cell gets
the sentinel `其他` with category order 0, while a dish under the explicit
category cell `其他` gets a later order — two dishes of the same meal share
the category string `其他` but not the `categoryOrder`. -/
theorem c6_sentinel_category_order_clash :
    ((extract_items_from_segment dfOtherClash ⟨0, 2, "lunch"⟩ 1).map
        (fun i => (i.category, i.category_order)) =
      [("其他", 0), ("荤菜", 0), ("其他", 1)]) ∧
    ¬ (∀ i ∈ extract_items_from_segment dfOtherClash ⟨0, 2, "lunch"⟩ 1,
        ∀ j ∈ extract_items_from_segment dfOtherClash ⟨0, 2, "lunch"⟩ 1,
          i.category = j.category → i.category_order = j.category_order) := by
  refine ⟨by decide, by decide⟩

/-- Claim C6, amended: a row whose leading category cell is blank inherits
the most recently seen non-blank category of the same scan (dishes before
any category default to `其他`); any two dishes of one segment extraction
that share a category string other than the sentinel `其他` share the same
`categoryOrder` (the sentinel can collide with an explicit `其他` category
cell, per the counterexample); and the `["粥品", "", ""]` example produces
three dishes with category `粥品` and identical `categoryOrder`. -/
theorem c6_category_continuation_and_order :
    (∀ (df : DataFrame) (col_idx : Nat) (rows : List Nat) (r : Nat),
      ∃ new,
        ((rows ++ [r]).foldl (extract_row_step df col_idx) initExtract).2 =
          (rows.foldl (extract_row_step df col_idx) initExtract).2 ++ new ∧
        ∀ i ∈ new,
          i.category = (last_category df (rows ++ [r])).getD "其他") ∧
    (∀ (df : DataFrame) (segment : MealSegment) (col_idx : Nat),
      ∀ i ∈ extract_items_from_segment df segment col_idx,
        ∀ j ∈ extract_items_from_segment df segment col_idx,
          i.category = j.category → i.category ≠ "其他" →
          i.category_order = j.category_order) ∧
    (extract_items_from_segment dfCatCont ⟨0, 2, "lunch"⟩ 1).map
        (fun i => (i.category, i.category_order)) =
      [("粥品", 0), ("粥品", 0), ("粥品", 0)] := by
  refine ⟨?_, ?_, by decide⟩
  · intro df col_idx rows r
    rw [List.foldl_append, List.foldl_cons, List.foldl_nil]
    obtain ⟨hcc, new, hit, hprop⟩ :=
      row_step_spec df col_idx (rows.foldl (extract_row_step df col_idx) initExtract) r
    refine ⟨new, hit, fun i hi => ?_⟩
    rw [hprop i hi, extract_fold_last_category df col_idx rows initExtract,
      last_category, List.foldl_append, List.foldl_cons, List.foldl_nil]
    rfl
  · intro df segment col_idx i hi j hj hcat hne
    rw [extract_items_from_segment] at hi hj
    obtain ⟨hA, hB⟩ := extract_fold_consistent df col_idx
      (List.range' segment.start_row (segment.end_row + 1 - segment.start_row))
      initExtract (fun c hc => by cases hc)
      (fun x hx => absurd hx (List.not_mem_nil x))
    have h1 := hB i hi hne
    have h2 := hB j hj (by rw [← hcat]; exact hne)
    rw [hcat] at h1
    rw [h2] at h1
    exact (Option.some_injective Nat h1.symm)

/-- Witness for the amended C6 on the `["粥品", "", ""]` grid. -/
theorem c6_category_continuation_witness :
    (∃ new,
      (([0, 1] ++ [2]).foldl (extract_row_step dfCatCont 1) initExtract).2 =
        ([0, 1].foldl (extract_row_step dfCatCont 1) initExtract).2 ++ new ∧
      ∀ i ∈ new,
        i.category = (last_category dfCatCont ([0, 1] ++ [2])).getD "其他") ∧
    ((⟨"小米粥", "粥品", none, none, 0, 0⟩ : MenuItem) ∈
        extract_items_from_segment dfCatCont ⟨0, 2, "lunch"⟩ 1 ∧
      (⟨"大米粥", "粥品", none, none, 1, 0⟩ : MenuItem) ∈
        extract_items_from_segment dfCatCont ⟨0, 2, "lunch"⟩ 1 ∧
      (⟨"小米粥", "粥品", none, none, 0, 0⟩ : MenuItem).category_order =
        (⟨"大米粥", "粥品", none, none, 1, 0⟩ : MenuItem).category_order) :=
  ⟨c6_category_continuation_and_order.1 dfCatCont 1 [0, 1] 2,
   by decide, by decide,
   c6_category_continuation_and_order.2.1 dfCatCont ⟨0, 2, "lunch"⟩ 1
     ⟨"小米粥", "粥品", none, none, 0, 0⟩ (by decide)
     ⟨"大米粥", "粥品", none, none, 1, 0⟩ (by decide) (by decide) (by decide)⟩

/-- The count normalization returns `min(segmentCount, 3)` segments. -/
theorem validate_length (segs : List MealSegment) :
    (validate_and_adjust_segments segs).length = min segs.length 3 := by
  match segs with
  | [] => rfl
  | [s] => rfl
  | [s1, s2] => rfl
  | s1 :: s2 :: s3 :: rest =>
    simp only [validate_and_adjust_segments, List.length_cons, List.length_nil]
    omega

/-- The periods of the normalized segments form an ordered sublist of
breakfast, lunch, dinner. -/
theorem validate_types (segs : List MealSegment) :
    List.Sublist ((validate_and_adjust_segments segs).map (fun s => s.meal_type))
      ["breakfast", "lunch", "dinner"] := by
  match segs with
  | [] => decide
  | [s] =>
    simp only [validate_and_adjust_segments, List.map_cons, List.map_nil]
    decide
  | [s1, s2] =>
    simp only [validate_and_adjust_segments, List.map_cons, List.map_nil]
    decide
  | s1 :: s2 :: s3 :: rest =>
    simp only [validate_and_adjust_segments, List.map_cons, List.map_nil]
    decide

/-- Length of a `filterMap` as a count of the kept elements. -/
theorem length_filterMap_eq_countP (f : MealSegment → Option Meal)
    (l : List MealSegment) :
    (l.filterMap f).length = l.countP (fun a => (f a).isSome) := by
  induction l with
  | nil => rfl
  | cons a l ih =>
    rcases hfa : f a with _ | b
    · rw [List.filterMap_cons_none hfa, List.countP_cons]
      simp [hfa, ih]
    · rw [List.filterMap_cons_some hfa, List.countP_cons]
      simp [hfa, ih]

/-- A `filterMap` whose kept values project back to the source projections
yields a sublist of the source projections. -/
theorem map_filterMap_sublist (f : MealSegment → Option Meal)
    (g : Meal → String) (h : MealSegment → String)
    (hfg : ∀ a b, f a = some b → g b = h a) :
    ∀ l : List MealSegment,
      List.Sublist ((l.filterMap f).map g) (l.map h) := by
  intro l
  induction l with
  | nil => exact List.Sublist.refl []
  | cons a l ih =>
    rcases hfa : f a with _ | b
    · rw [List.filterMap_cons_none hfa, List.map_cons]
      exact List.Sublist.cons _ ih
    · rw [List.filterMap_cons_some hfa, List.map_cons, List.map_cons,
        hfg a b hfa]
      exact List.Sublist.cons₂ _ ih

/-- One meal per segment with at least one dish in the column. -/
theorem build_meals_length (df : DataFrame) (col_idx : Nat)
    (segs : List MealSegment) :
    (build_meals_for_col df segs col_idx).length =
      segs.countP
        (fun seg => !(extract_items_from_segment df seg col_idx).isEmpty) := by
  rw [build_meals_for_col, length_filterMap_eq_countP]
  refine congrArg (fun p => List.countP p segs) ?_
  funext seg
  by_cases he : (extract_items_from_segment df seg col_idx).isEmpty = true
  · rw [if_pos he]
    simp [he]
  · rw [if_neg he]
    have hf : (extract_items_from_segment df seg col_idx).isEmpty = false := by
      simpa using he
    simp [hf]

/-- The meal periods of one column follow the segment periods in order. -/
theorem build_meals_types (df : DataFrame) (col_idx : Nat)
    (segs : List MealSegment) :
    List.Sublist ((build_meals_for_col df segs col_idx).map (fun m => m.type))
      (segs.map (fun s => s.meal_type)) := by
  rw [build_meals_for_col]
  refine map_filterMap_sublist _ _ _ ?_ segs
  intro a b hb
  by_cases he : (extract_items_from_segment df a col_idx).isEmpty = true
  · rw [if_pos he] at hb
    cases hb
  · rw [if_neg he] at hb
    cases hb
    rfl

/-- Claim C2, counterexample: a two-segment grid in which the second segment
has no dish in the `星期二` column produces one meal for that day, not
`min(segmentCount, 3) = 2`; the full parse likewise returns day meal counts
`[2, 1]`. -/
theorem c2_day_can_have_fewer_meals_than_segments :
    (identify_meal_segments_raw dfTwoSegs 0).length = 2 ∧
    min (identify_meal_segments_raw dfTwoSegs 0).length 3 = 2 ∧
    (build_meals_for_col dfTwoSegs (identify_meal_segments dfTwoSegs 0) 2).length = 1 ∧
    (build_meals_for_col dfTwoSegs (identify_meal_segments dfTwoSegs 0) 2).length ≠
      min (identify_meal_segments_raw dfTwoSegs 0).length 3 ∧
    (parse_horizontal_weekly_format dfWeekly).toOption.map
        (fun l => l.map (fun d => d.meals.length)) = some [2, 1] := by
  refine ⟨by decide, by decide, by decide, by decide, by decide⟩

/-- Claim C2, amended: per weekday column the parse produces one Meal per
normalized segment that yields at least one dish in that column — hence at
most `min(segmentCount, 3)` Meal periods — and the periods always appear in
the order breakfast, lunch, dinner. -/
theorem c2_meals_per_day_bound_and_order :
    ∀ (df : DataFrame) (wri col_idx : Nat),
      (build_meals_for_col df (identify_meal_segments df wri) col_idx).length =
        (identify_meal_segments df wri).countP
          (fun seg => !(extract_items_from_segment df seg col_idx).isEmpty) ∧
      (build_meals_for_col df (identify_meal_segments df wri) col_idx).length ≤
        min (identify_meal_segments_raw df wri).length 3 ∧
      List.Sublist
        ((build_meals_for_col df (identify_meal_segments df wri) col_idx).map
          (fun m => m.type))
        ["breakfast", "lunch", "dinner"] := by
  intro df wri col_idx
  refine ⟨build_meals_length df col_idx _, ?_, ?_⟩
  · calc (build_meals_for_col df (identify_meal_segments df wri) col_idx).length
        ≤ (identify_meal_segments df wri).length := List.length_filterMap_le _ _
      _ = min (identify_meal_segments_raw df wri).length 3 :=
        validate_length _
  · exact (build_meals_types df col_idx _).trans (validate_types _)

/-- Insertion keeps one more element. -/
theorem insertByDate_length (x : MenuData) :
    ∀ l : List MenuData, (insertByDate x l).length = l.length + 1 := by
  intro l
  induction l with
  | nil => rfl
  | cons y ys ih =>
    rw [insertByDate]
    by_cases hc : charsLe x.date.data y.date.data = true
    · rw [if_pos hc]
      rfl
    · rw [if_neg hc, List.length_cons, ih, List.length_cons]

/-- Sorting by date keeps the length. -/
theorem sortByDate_length (l : List MenuData) :
    (sortByDate l).length = l.length := by
  rw [sortByDate]
  induction l with
  | nil => rfl
  | cons y ys ih =>
    rw [List.foldr_cons, insertByDate_length, ih, List.length_cons]

/-- Claim C7: the horizontal-weekly parse fails exactly when no weekday
header row is found, no base date can be determined, or no weekday column
yields any meal; otherwise it returns a non-empty list of daily records
(cell-local defects are skipped inside the extraction and never abort the
parse). -/
theorem c7_parse_failure_characterization :
    ∀ df : DataFrame,
      ((∃ e, parse_horizontal_weekly_format df = .error e) ↔
        ((find_weekday_headers df).2 = [] ∨
         extract_base_date df = none ∨
         ∀ wc ∈ (find_weekday_headers df).2,
           build_meals_for_col df
             (identify_meal_segments df (find_weekday_headers df).1) wc.1 = [])) ∧
      (∀ l, parse_horizontal_weekly_format df = .ok l → l ≠ []) := by
  intro df
  by_cases hwc : (find_weekday_headers df).2.isEmpty = true
  · have hparse : parse_horizontal_weekly_format df =
        .error "Could not find weekday headers in horizontal format" := by
      simp [parse_horizontal_weekly_format, hwc]
    rw [hparse]
    refine ⟨⟨fun _ => Or.inl (List.isEmpty_iff.mp hwc), fun _ => ⟨_, rfl⟩⟩,
      fun l hl => Except.noConfusion hl⟩
  · have hwc2 : ¬ (find_weekday_headers df).2 = [] := fun h => by
      rw [h] at hwc
      exact hwc rfl
    rcases hbd : extract_base_date df with _ | bd
    · have hparse : parse_horizontal_weekly_format df =
          .error "Could not determine base date for horizontal weekly format" := by
        simp [parse_horizontal_weekly_format, hwc, hbd]
      rw [hparse]
      refine ⟨⟨fun _ => Or.inr (Or.inl rfl), fun _ => ⟨_, rfl⟩⟩,
        fun l hl => Except.noConfusion hl⟩
    · have hparse : parse_horizontal_weekly_format df =
          (if ((find_weekday_headers df).2.filterMap (fun wc =>
              if (build_meals_for_col df
                  (identify_meal_segments df (find_weekday_headers df).1)
                  wc.1).isEmpty = true then none
              else some (MenuData.mk
                (dateStr (calculate_date_for_weekday bd wc.2.2))
                (build_meals_for_col df
                  (identify_meal_segments df (find_weekday_headers df).1)
                  wc.1)))).isEmpty = true then
            .error "No valid menu data found in horizontal weekly format"
          else .ok (sortByDate ((find_weekday_headers df).2.filterMap (fun wc =>
              if (build_meals_for_col df
                  (identify_meal_segments df (find_weekday_headers df).1)
                  wc.1).isEmpty = true then none
              else some (MenuData.mk
                (dateStr (calculate_date_for_weekday bd wc.2.2))
                (build_meals_for_col df
                  (identify_meal_segments df (find_weekday_headers df).1)
                  wc.1)))))) := by
        simp [parse_horizontal_weekly_format, hwc, hbd]
      by_cases hres : ((find_weekday_headers df).2.filterMap (fun wc =>
          if (build_meals_for_col df
              (identify_meal_segments df (find_weekday_headers df).1)
              wc.1).isEmpty = true then none
          else some (MenuData.mk
            (dateStr (calculate_date_for_weekday bd wc.2.2))
            (build_meals_for_col df
              (identify_meal_segments df (find_weekday_headers df).1)
              wc.1)))).isEmpty = true
      · rw [if_pos hres] at hparse
        rw [hparse]
        refine ⟨⟨fun _ => Or.inr (Or.inr ?_), fun _ => ⟨_, rfl⟩⟩,
          fun l hl => Except.noConfusion hl⟩
        intro wc hwcmem
        have hnil := List.filterMap_eq_nil_iff.mp (List.isEmpty_iff.mp hres) wc hwcmem
        by_cases hm : (build_meals_for_col df
            (identify_meal_segments df (find_weekday_headers df).1)
            wc.1).isEmpty = true
        · exact List.isEmpty_iff.mp hm
        · rw [if_neg hm] at hnil
          exact Option.noConfusion hnil
      · rw [if_neg hres] at hparse
        rw [hparse]
        constructor
        · constructor
          · rintro ⟨e, he⟩
            exact Except.noConfusion he
          · rintro (h | h | h)
            · exact absurd h hwc2
            · exact Option.noConfusion h
            · refine absurd ?_ hres
              rw [List.isEmpty_iff]
              refine List.filterMap_eq_nil_iff.mpr ?_
              intro wc hwcmem
              rw [if_pos]
              rw [List.isEmpty_iff]
              exact h wc hwcmem
        · intro l hl
          injection hl with hinj
          intro hnil
          rw [hnil] at hinj
          have hlen := sortByDate_length ((find_weekday_headers df).2.filterMap
            (fun wc =>
              if (build_meals_for_col df
                  (identify_meal_segments df (find_weekday_headers df).1)
                  wc.1).isEmpty = true then none
              else some (MenuData.mk
                (dateStr (calculate_date_for_weekday bd wc.2.2))
                (build_meals_for_col df
                  (identify_meal_segments df (find_weekday_headers df).1)
                  wc.1))))
          rw [hinj] at hlen
          have : ((find_weekday_headers df).2.filterMap (fun wc =>
              if (build_meals_for_col df
                  (identify_meal_segments df (find_weekday_headers df).1)
                  wc.1).isEmpty = true then none
              else some (MenuData.mk
                (dateStr (calculate_date_for_weekday bd wc.2.2))
                (build_meals_for_col df
                  (identify_meal_segments df (find_weekday_headers df).1)
                  wc.1)))) = [] :=
            List.length_eq_zero.mp (by simpa using hlen.symm)
          rw [← List.isEmpty_iff] at this
          exact hres this

/-- Witness for C7 on the concrete weekly grid: the parse succeeds and
returns a non-empty record list. -/
theorem c7_parse_failure_characterization_witness :
    (¬ ((find_weekday_headers dfWeekly).2 = [] ∨
        extract_base_date dfWeekly = none ∨
        ∀ wc ∈ (find_weekday_headers dfWeekly).2,
          build_meals_for_col dfWeekly
            (identify_meal_segments dfWeekly (find_weekday_headers dfWeekly).1)
            wc.1 = [])) ∧
    (∃ l, parse_horizontal_weekly_format dfWeekly = .ok l ∧ l ≠ []) := by
  constructor
  · intro h
    obtain ⟨e, he⟩ := (c7_parse_failure_characterization dfWeekly).1.mpr h
    have hok : (parse_horizontal_weekly_format dfWeekly).toOption.isSome = true := by
      decide
    rw [he] at hok
    exact Bool.noConfusion hok
  · refine ⟨_, rfl, (c7_parse_failure_characterization dfWeekly).2 _ rfl⟩

end Canteen
